import Mathlib

/-!
Shallow embedding of the Muuto item-number lookup tool
(`src/streamlit_muuto_lookup_app.py`) and verification of the frozen
claims about it.

Python strings are modelled as Lean `String` (whose kernel representation
is a `List Char`); per-character work is done on `String.data`.  Regular
expressions are modelled by explicit leftmost-match scanning functions.
`pandas.DataFrame` is modelled row-major as a list of column names plus a
list of rows of optional string cells (`none` models `None`/missing).
The in-place column assignment `df[h] = None` performed by
`select_order_and_rename` is modelled by explicit state passing: the
function returns both the projected table and the post-state of its
argument.
-/

/-- ASCII whitespace recognised by Python `str.strip()` and by `\s` in the
regex `[\s,;]+` (space, tab, newline, carriage return, vertical tab, form
feed).  The app only ever meets ASCII identifiers, so the Unicode
whitespace extension of `\s` is not modelled. -/
def isSpaceChar (c : Char) : Bool :=
  c == ' ' || c == Char.ofNat 9 || c == Char.ofNat 10 || c == Char.ofNat 13 ||
  c == Char.ofNat 11 || c == Char.ofNat 12

/-- A character of the token-separator class `[\s,;]` used by
`re.split` in `parse_pasted_ids`. -/
def isDelimChar (c : Char) : Bool :=
  isSpaceChar c || c == ',' || c == ';'

/-- The straight double-quote character. -/
def dquoteChar : Char := Char.ofNat 34

/-- The straight single-quote character. -/
def squoteChar : Char := Char.ofNat 39

/-- Python `s.strip(chars)`: remove all leading and all trailing
characters satisfying `p`. -/
def pyStrip (p : Char → Bool) (l : List Char) : List Char :=
  ((l.dropWhile p).reverse.dropWhile p).reverse

/-- Python `s.strip()` on a `String`. -/
def pyStripWsS (s : String) : String :=
  String.mk (pyStrip isSpaceChar s.data)

/-- Python `s.lower()` (ASCII case folding, which covers every header
the app compares). -/
def pyLowerS (s : String) : String :=
  String.mk (s.data.map Char.toLower)

/-- `re.split(r"[\s,;]+", s)`: split at each maximal run of separator
characters.  A leading (resp. trailing) run contributes an empty first
(resp. last) field, exactly as `re.split` does. -/
def splitRuns (p : Char → Bool) : List Char → List (List Char)
  | [] => [[]]
  | c :: cs =>
    let r := splitRuns p cs
    if p c then
      match cs with
      | [] => [] :: r
      | c2 :: _ => if p c2 then r else [] :: r
    else
      match r with
      | [] => [[c]]
      | t :: ts => (c :: t) :: ts

/-- `t.strip().strip('"').strip("'")` applied to one raw token. -/
def cleanToken (t : List Char) : List Char :=
  pyStrip (fun c => c == squoteChar)
    (pyStrip (fun c => c == dquoteChar) (pyStrip isSpaceChar t))

/-- The list comprehension
`[t.strip().strip('"').strip("'") for t in tokens if t.strip()]`. -/
def cleanedTokens (raw : List Char) : List String :=
  (((splitRuns isDelimChar (pyStrip isSpaceChar raw)).filter
      (fun t => !(pyStrip isSpaceChar t).isEmpty)).map
    (fun t => String.mk (cleanToken t)))

/-- The dedup loop of `parse_pasted_ids`: keep the first occurrence of
each string, preserving order (`seen` accumulates what was kept). -/
def dedupFirst (seen : List String) : List String → List String
  | [] => []
  | t :: ts => if t ∈ seen then dedupFirst seen ts else t :: dedupFirst (t :: seen) ts

/-- `parse_pasted_ids(raw)` from the source: split the pasted block on
runs of whitespace/comma/semicolon, strip whitespace and straight quotes
from each token, drop tokens that are empty after whitespace-stripping,
and deduplicate keeping first occurrences. -/
def parse_pasted_ids (raw : String) : List String :=
  if raw = "" then []
  else dedupFirst [] (cleanedTokens raw.data)

/-!
## Constants and URL conversion
-/

/-- `OUTPUT_HEADERS` from the source: the fixed canonical output schema. -/
def OUTPUT_HEADERS : List String :=
  ["New Item No.", "OLD Item-variant", "Ean no.", "Description", "Family", "Category"]

/-- `DEFAULT_SHEET_URL` from the source. -/
def DEFAULT_SHEET_URL : String :=
  "https://docs.google.com/spreadsheets/d/1S50it_q1BahpZCPW8dbuN7DyOMnyDgFIg76xIDSoXEk/edit?gid=1056617222#gid=1056617222"

/-- `required = OUTPUT_HEADERS + ["OLD Item-variant", "Ean no."]` (line 247). -/
def APP_REQUIRED : List String :=
  OUTPUT_HEADERS ++ ["OLD Item-variant", "Ean no."]

/-- A character of the regex class `[a-zA-Z0-9-_]` used for sheet ids. -/
def urlIdChar (c : Char) : Bool :=
  c.isAlphanum || c == '-' || c == '_'

/-- Leftmost match of the pattern `<lit>(<p>+)`, returning the greedy
capture group, as `re.search` computes it for a literal followed by a
character-class plus: try each start position from the left; at a
position where the literal matches and at least one class character
follows, capture the maximal run. -/
def findCapture (lit : List Char) (p : Char → Bool) : List Char → Option (List Char)
  | [] => none
  | c :: rest =>
    if lit.isPrefixOf (c :: rest) then
      let cap := ((c :: rest).drop lit.length).takeWhile p
      if cap.isEmpty then findCapture lit p rest else some cap
    else findCapture lit p rest

/-- Leftmost match of `[?&#]gid=(\d+)`, returning the captured digit
run. -/
def findGid : List Char → Option (List Char)
  | [] => none
  | c :: rest =>
    if (c == '?' || c == '&' || c == '#') && "gid=".data.isPrefixOf rest
        && !((rest.drop 4).takeWhile Char.isDigit).isEmpty then
      some ((rest.drop 4).takeWhile Char.isDigit)
    else findGid rest

/-- `to_csv_export_url(url)` from the source.  Note that the first
regex `https://docs.google.com/spreadsheets/d/([a-zA-Z0-9-_]+)` is tried
before the published-form regex `.../d/e/([a-zA-Z0-9-_]+)`; on a
published link `.../d/e/<id>/...` the first regex already matches with
capture `e`, which this embedding reproduces faithfully. -/
def to_csv_export_url (url : String) : String :=
  if url = "" then ""
  else
    let u := pyStrip isSpaceChar url.data
    match findCapture "https://docs.google.com/spreadsheets/d/".data urlIdChar u with
    | some sheetId =>
      let gid := (findGid u).getD ['0']
      String.mk ("https://docs.google.com/spreadsheets/d/".data ++ sheetId
        ++ "/export?format=csv&gid=".data ++ gid)
    | none =>
      match findCapture "https://docs.google.com/spreadsheets/d/e/".data urlIdChar u with
      | some docIdE =>
        let gid := (findGid u).getD ['0']
        String.mk ("https://docs.google.com/spreadsheets/d/e/".data ++ docIdE
          ++ "/pub?gid=".data ++ gid ++ "&single=true&output=csv".data)
      | none => String.mk u

/-!
## DataFrame model
-/

/-- Row-major model of a `pandas.DataFrame` holding string data: the
ordered column labels and the rows, each row a list of cells aligned
with `cols`.  A cell `none` models `None`. -/
structure DataFrame where
  cols : List String
  rows : List (List (Option String))
deriving DecidableEq

/-- Well-formedness: every row has exactly one cell per column. -/
def dfWF (d : DataFrame) : Prop :=
  ∀ r ∈ d.rows, r.length = d.cols.length

instance (d : DataFrame) : Decidable (dfWF d) := by
  unfold dfWF; infer_instance

/-- Position of the first element satisfying `p`. -/
def firstIdx (p : String → Bool) : List String → Option Nat
  | [] => none
  | c :: cs => if p c then some 0 else (firstIdx p cs).map (· + 1)

/-- The cell of row `r` in the column labelled `n` (first matching label,
labels being unique in every table the app builds); `none` when the
label is absent or the row is short. -/
def cellAt (cols : List String) (r : List (Option String)) (n : String) : Option String :=
  match firstIdx (fun c => c == n) cols with
  | some i => (r.getD i none)
  | none => none

/-- All cells of the column labelled `n`, in row order. -/
def getColValues (d : DataFrame) (n : String) : List (Option String) :=
  d.rows.map (fun r => cellAt d.cols r n)

/-- Pandas `df[h] = None`: overwrite the column `h` with all-`None`
values, appending a new column at the end when the label is absent. -/
def setColNone (d : DataFrame) (h : String) : DataFrame :=
  match firstIdx (fun c => c == h) d.cols with
  | some i => ⟨d.cols, d.rows.map (fun r => r.set i none)⟩
  | none => ⟨d.cols ++ [h], d.rows.map (fun r => r ++ [none])⟩

/-- Pandas column selection `df[sel]`: the listed columns, in the listed
order. -/
def selectCols (d : DataFrame) (sel : List String) : DataFrame :=
  ⟨sel, d.rows.map (fun r => sel.map (fun n => cellAt d.cols r n))⟩

/-- Dict lookup in a Python dict built by a comprehension: the *last*
inserted binding for a key wins, so look from the right. -/
def dictGetLast (pairs : List (String × String)) (n : String) : Option String :=
  match pairs.reverse.find? (fun q => q.1 == n) with
  | some q => some q.2
  | none => none

/-- Pandas `df.rename(columns=m)`: relabel every column whose label is a
key of `m`. -/
def applyRename (pairs : List (String × String)) (n : String) : String :=
  match dictGetLast pairs n with
  | some v => v
  | none => n

/-- Relabel the columns of `d` along the rename mapping. -/
def renameCols (d : DataFrame) (pairs : List (String × String)) : DataFrame :=
  ⟨d.cols.map (applyRename pairs), d.rows⟩

/-!
## Column resolution (`map_case_insensitive`)
-/

/-- Lookup in the dict `{c.lower(): c for c in cols}`: because a dict
comprehension lets later bindings overwrite earlier ones, the result is
the last column whose lower-cased label equals `k`. -/
def lower_map_get (cols : List String) (k : String) : Option String :=
  cols.foldl (fun acc c => if pyLowerS c == k then some c else acc) none

/-- `map_case_insensitive(df, required)` from the source, as the
association list `{name: lower_map.get(name.lower()) for name in required}`. -/
def map_case_insensitive (df : DataFrame) (required : List String) :
    List (String × Option String) :=
  required.map (fun name => (name, lower_map_get df.cols (pyLowerS name)))

/-- `colmap.get(h)` on the association-list model of the dict. -/
def colmapGet (cm : List (String × Option String)) (h : String) : Option String :=
  match cm.find? (fun q => q.1 == h) with
  | some q => q.2
  | none => none

/-!
## Result projection (`select_order_and_rename`)
-/

/-- One iteration of the `for h in OUTPUT_HEADERS` loop of
`select_order_and_rename`, threading the mutating frame `d` and the
accumulating selection list `cs`. -/
def sar_step (cm : List (String × Option String)) :
    DataFrame × List String → String → DataFrame × List String
  | (d, cs), h =>
    match colmapGet cm h with
    | some a => if a ≠ "" ∧ a ∈ d.cols then (d, cs ++ [a]) else (setColNone d h, cs ++ [h])
    | none => (setColNone d h, cs ++ [h])

/-- The selection label the loop records for header `h` (the resolved
actual label, else `h` itself). -/
def sar_pick (cm : List (String × Option String)) (h : String) : String :=
  match colmapGet cm h with
  | some a => a
  | none => h

/-- `rename_map = {colmap[h]: h for h in OUTPUT_HEADERS if colmap.get(h)
and colmap[h] != h}` as the insertion-ordered pair list. -/
def renamePairs (cm : List (String × Option String)) : List (String × String) :=
  OUTPUT_HEADERS.filterMap (fun h =>
    match colmapGet cm h with
    | some a => if a ≠ "" ∧ a ≠ h then some (a, h) else none
    | none => none)

/-- `select_order_and_rename(df, colmap)` from the source.  The first
component is the returned projected table; the second is the post-state
of the caller's argument `df`, which the loop mutates through
`df[h] = None`. -/
def select_order_and_rename (df : DataFrame) (cm : List (String × Option String)) :
    DataFrame × DataFrame :=
  let st := OUTPUT_HEADERS.foldl (sar_step cm) (df, [])
  (renameCols (selectCols st.1 st.2) (renamePairs cm), st.1)

/-!
## Step 1 key-column preparation and Step 3 lookup (module level)
-/

/-- Python `str(x)` on a cell: `None` prints as `"None"` (pandas
`astype(str)` on an object column). -/
def cellToStr : Option String → String
  | some s => s
  | none => "None"

/-- One cell of `work[c].astype(str).str.strip()`. -/
def prepCell (c : Option String) : Option String :=
  some (pyStripWsS (cellToStr c))

/-- Pandas `df[n] = df[n].map(f)`-style per-cell update of one column.
In the app the column always exists (its presence is guarded by the
column-map check), so the absent case is modelled as the identity. -/
def mapColCells (d : DataFrame) (n : String) (f : Option String → Option String) : DataFrame :=
  match firstIdx (fun c => c == n) d.cols with
  | some i => ⟨d.cols, d.rows.map (fun r => r.set i (f (r.getD i none)))⟩
  | none => d

/-- Lines 259-261: `work = mapping_df.copy()` followed by stripping both
key columns as strings. -/
def prepare_work (mapping_df : DataFrame) (old_col ean_col : String) : DataFrame :=
  mapColCells (mapColCells mapping_df old_col prepCell) ean_col prepCell

/-- `Series.isin(ids)` on one cell. -/
def isinCell (ids : List String) (c : Option String) : Bool :=
  match c with
  | some s => ids.contains s
  | none => false

/-- The row mask `work[old_col].isin(ids) | work[ean_col].isin(ids)`. -/
def rowMask (cols : List String) (old_col ean_col : String) (ids : List String)
    (r : List (Option String)) : Bool :=
  isinCell ids (cellAt cols r old_col) || isinCell ids (cellAt cols r ean_col)

/-- `matches = work.loc[mask].copy()` (line 291-292). -/
def step3_matches (work : DataFrame) (old_col ean_col : String) (ids : List String) :
    DataFrame :=
  ⟨work.cols, work.rows.filter (rowMask work.cols old_col ean_col ids)⟩

/-- `matched_keys = set(matches[old_col].dropna().astype(str)) |
set(matches[ean_col].dropna().astype(str))` (line 294), as the list of
members. -/
def step3_matched_keys (work : DataFrame) (old_col ean_col : String) (ids : List String) :
    List String :=
  (getColValues (step3_matches work old_col ean_col ids) old_col).filterMap id
    ++ (getColValues (step3_matches work old_col ean_col ids) ean_col).filterMap id

/-- `not_found = [x for x in ids if x not in matched_keys]` (line 295). -/
def step3_not_found (work : DataFrame) (old_col ean_col : String) (ids : List String) :
    List String :=
  ids.filter (fun x => !(decide (x ∈ step3_matched_keys work old_col ean_col ids)))

/-- `ordered = select_order_and_rename(matches, colmap)` (line 297): the
final result table that is displayed and exported. -/
def step3_ordered (work : DataFrame) (old_col ean_col : String) (ids : List String)
    (cm : List (String × Option String)) : DataFrame :=
  (select_order_and_rename (step3_matches work old_col ean_col ids) cm).1

/-!
## Sample tables used by concrete counterexamples and witnesses
-/

/-- A one-row mapping table: old code `ABC`, EAN `999`. -/
def dfAB : DataFrame :=
  ⟨["OLD Item-variant", "Ean no."], [[some "ABC", some "999"]]⟩

/-- The column map the app computes for `dfAB` (line 248). -/
def cmAB : List (String × Option String) :=
  map_case_insensitive dfAB APP_REQUIRED

/-- The prepared lookup table for `dfAB` (lines 259-261). -/
def workAB : DataFrame :=
  prepare_work dfAB "OLD Item-variant" "Ean no."

/-- A table whose headers collide case-insensitively. -/
def dfFam2 : DataFrame :=
  ⟨["Family", "FAMILY"], []⟩

/-!
## Lemmas about `parse_pasted_ids`
-/

theorem dedupFirst_sublist (l : List String) :
    ∀ seen, List.Sublist (dedupFirst seen l) l := by
  induction l with
  | nil => intro seen; simp [dedupFirst]
  | cons t ts ih =>
    intro seen
    by_cases h : t ∈ seen
    · simpa [dedupFirst, h] using List.Sublist.cons t (ih seen)
    · simpa [dedupFirst, h] using List.Sublist.cons₂ t (ih (t :: seen))

theorem dedupFirst_nodup_aux (l : List String) :
    ∀ seen, (dedupFirst seen l).Nodup ∧ ∀ x ∈ dedupFirst seen l, x ∉ seen := by
  induction l with
  | nil => intro seen; simp [dedupFirst]
  | cons t ts ih =>
    intro seen
    simp only [dedupFirst]
    by_cases h : t ∈ seen
    · rw [if_pos h]; exact ih seen
    · rw [if_neg h]
      have iht := ih (t :: seen)
      constructor
      · rw [List.nodup_cons]
        exact ⟨fun hmem => (iht.2 t hmem) (List.mem_cons_self t seen), iht.1⟩
      · intro x hx hxseen
        rcases List.mem_cons.mp hx with rfl | hx2
        · exact h hxseen
        · exact (iht.2 x hx2) (List.mem_cons_of_mem t hxseen)

theorem head?_dropWhile_not (p : Char → Bool) (l : List Char) (c : Char)
    (h : (l.dropWhile p).head? = some c) : p c = false := by
  induction l with
  | nil => simp at h
  | cons a l ih =>
    rw [List.dropWhile_cons] at h
    by_cases hpa : p a = true
    · rw [if_pos hpa] at h; exact ih h
    · rw [if_neg hpa] at h
      simp only [List.head?_cons, Option.some.injEq] at h
      subst h
      simp only [Bool.not_eq_true] at hpa
      exact hpa

theorem getLast?_dropWhile_ne (p : Char → Bool) (l : List Char)
    (h : l.dropWhile p ≠ []) : (l.dropWhile p).getLast? = l.getLast? := by
  induction l with
  | nil => simp at h
  | cons a l ih =>
    rw [List.dropWhile_cons]
    by_cases hpa : p a = true
    · rw [List.dropWhile_cons, if_pos hpa] at h
      have hl : l ≠ [] := by
        intro hnil; subst hnil; simp [List.dropWhile] at h
      rw [if_pos hpa, ih h]
      obtain ⟨b, l2, rfl⟩ := List.exists_cons_of_ne_nil hl
      rw [List.getLast?_cons_cons]
    · rw [if_neg hpa]

theorem pyStrip_getLast?_not (p : Char → Bool) (l : List Char) (c : Char)
    (h : (pyStrip p l).getLast? = some c) : p c = false := by
  unfold pyStrip at h
  rw [List.getLast?_reverse] at h
  exact head?_dropWhile_not p _ c h

theorem pyStrip_head?_not (p : Char → Bool) (l : List Char) (c : Char)
    (h : (pyStrip p l).head? = some c) : p c = false := by
  unfold pyStrip at h
  rw [List.head?_reverse] at h
  have hne : (l.dropWhile p).reverse.dropWhile p ≠ [] := by
    intro hnil; rw [hnil] at h; simp at h
  rw [getLast?_dropWhile_ne p _ hne, List.getLast?_reverse] at h
  exact head?_dropWhile_not p _ c h

theorem parse_mem_cleaned (raw : String) (t : String)
    (h : t ∈ parse_pasted_ids raw) : t ∈ cleanedTokens raw.data := by
  unfold parse_pasted_ids at h
  by_cases hraw : raw = ""
  · simp [hraw] at h
  · rw [if_neg hraw] at h
    exact (dedupFirst_sublist _ []).mem h

theorem parse_all_space (raw : String) (h : ∀ c ∈ raw.data, isSpaceChar c = true) :
    parse_pasted_ids raw = [] := by
  unfold parse_pasted_ids
  by_cases hraw : raw = ""
  · rw [if_pos hraw]
  · rw [if_neg hraw]
    have hstrip : pyStrip isSpaceChar raw.data = [] := by
      unfold pyStrip
      rw [List.dropWhile_eq_nil_iff.mpr h]
      rfl
    unfold cleanedTokens
    rw [hstrip]
    rfl

/-!
## Claims C7 and C8: the token parser
-/

/-- C7 (amended).  `parse_pasted_ids` strips surrounding whitespace,
then *all* layers of surrounding straight double quotes, then all layers
of surrounding straight single quotes; curly quotes are never stripped.
Consequently no returned token starts or ends with a straight single
quote, `""X""` parses to `X` (both layers gone), `"'A'"` parses to `A`,
and a curly-quoted token is returned with its quotes intact. -/
theorem C7_amended_quote_stripping :
    (∀ (raw t : String), t ∈ parse_pasted_ids raw →
        t.data.head? ≠ some squoteChar ∧ t.data.getLast? ≠ some squoteChar) ∧
    parse_pasted_ids (String.mk [dquoteChar, dquoteChar, 'X', dquoteChar, dquoteChar])
      = ["X"] ∧
    parse_pasted_ids (String.mk [dquoteChar, squoteChar, 'A', squoteChar, dquoteChar])
      = ["A"] ∧
    parse_pasted_ids (String.mk [Char.ofNat 8220, 'X', Char.ofNat 8221])
      = [String.mk [Char.ofNat 8220, 'X', Char.ofNat 8221]] := by
  refine ⟨?_, by decide, by decide, by decide⟩
  intro raw t hmem
  have hcl := parse_mem_cleaned raw t hmem
  unfold cleanedTokens at hcl
  rcases List.mem_map.mp hcl with ⟨u, _, rfl⟩
  constructor
  · intro hhead
    have := pyStrip_head?_not (fun c => c == squoteChar) _ squoteChar hhead
    simp at this
  · intro hlast
    have := pyStrip_getLast?_not (fun c => c == squoteChar) _ squoteChar hlast
    simp at this

/-- C7 counterexample to the claim as stated: the claim demands that
exactly one layer of surrounding quotes be stripped with an inner second
layer preserved, so `""X""` would have to parse to `"X"`; the code
strips both layers and yields `X`. -/
theorem C7_counterexample :
    parse_pasted_ids (String.mk [dquoteChar, dquoteChar, 'X', dquoteChar, dquoteChar])
        = ["X"] ∧
    ("X" : String) ≠ String.mk [dquoteChar, 'X', dquoteChar] := by
  decide

/-- C7 witness: the no-surrounding-single-quote guarantee applied to a
concrete parse. -/
theorem C7_witness :
    ("A" : String).data.head? ≠ some squoteChar ∧
    ("A" : String).data.getLast? ≠ some squoteChar :=
  C7_amended_quote_stripping.1
    (String.mk [squoteChar, 'A', squoteChar]) "A" (by decide)

/-- C8 (confirmed).  `parse_pasted_ids` never returns duplicates and
only ever drops elements (keeping first occurrences in first-seen
order, never sorting): its result is a duplicate-free sublist of the
cleaned token list.  `parse("A, a, A")` is `["A", "a"]` (exact string
comparison, so the two cases survive), empty input yields `[]`, and
whitespace-only input yields `[]`.  (The function is total, so it never
fails.) -/
theorem C8_parse_dedup :
    (∀ raw : String, (parse_pasted_ids raw).Nodup ∧
        List.Sublist (parse_pasted_ids raw) (cleanedTokens raw.data)) ∧
    parse_pasted_ids "A, a, A" = ["A", "a"] ∧
    parse_pasted_ids "" = [] ∧
    (∀ raw : String, (∀ c ∈ raw.data, isSpaceChar c = true) → parse_pasted_ids raw = []) := by
  refine ⟨?_, by decide, by decide, parse_all_space⟩
  intro raw
  unfold parse_pasted_ids
  by_cases hraw : raw = ""
  · rw [if_pos hraw]
    exact ⟨List.nodup_nil, List.nil_sublist _⟩
  · rw [if_neg hraw]
    exact ⟨(dedupFirst_nodup_aux _ []).1, dedupFirst_sublist _ []⟩

/-- C8 witness: the theorem applied at the concrete whitespace-only
input `"   "`. -/
theorem C8_witness : parse_pasted_ids "   " = [] :=
  C8_parse_dedup.2.2.2 "   " (by decide)

/-!
## Claims C5 and C6: URL conversion and column resolution
-/

theorem lower_map_get_concat (l : List String) (c : String) (k : String) :
    lower_map_get (l ++ [c]) k =
      if pyLowerS c == k then some c else lower_map_get l k := by
  unfold lower_map_get
  rw [List.foldl_append]
  rfl

/-- Building `{c.lower(): c for c in cols}` and looking up `k` returns
the *last* column (in column order) whose lower-cased label is `k`. -/
theorem lower_map_get_eq (cols : List String) (k : String) :
    lower_map_get cols k = cols.reverse.find? (fun c => pyLowerS c == k) := by
  induction cols using List.reverseRecOn with
  | nil => rfl
  | append_singleton l c ih =>
    rw [lower_map_get_concat, List.reverse_concat, List.find?_cons]
    cases hpc : (pyLowerS c == k)
    · simpa using ih
    · simp

theorem colmapGet_mci (df : DataFrame) (required : List String) (h : String)
    (hmem : h ∈ required) :
    colmapGet (map_case_insensitive df required) h = lower_map_get df.cols (pyLowerS h) := by
  unfold colmapGet map_case_insensitive
  induction required with
  | nil => cases hmem
  | cons n ns ih =>
    simp only [List.map_cons, List.find?_cons]
    cases hbeq : ((n, lower_map_get df.cols (pyLowerS n)).1 == h)
    · have hne : n ≠ h := by simpa using hbeq
      have : h ∈ ns := by
        rcases List.mem_cons.mp hmem with rfl | hm
        · exact absurd rfl hne
        · exact hm
      exact ih this
    · have heq : n = h := by simpa using hbeq
      subst heq
      rfl

/-- C5 (code bug).  What `to_csv_export_url` actually computes: a
standard `/edit` sharing link (with `gid`) is converted to the canonical
CSV export URL; but on a separately-published `/d/e/<long id>/...` link
the first regex already matches with capture group `e` (the character
class stops at the `/`), so the function returns
`.../spreadsheets/d/e/export?format=csv&gid=0` instead of the
published-sheet `pub?...output=csv` form with the full identifier — the
published-form branch of the code is unreachable, contradicting its own
comment.  A link with no recognizable identifier passes through. -/
theorem C5_url_conversion_eval :
    to_csv_export_url DEFAULT_SHEET_URL
      = "https://docs.google.com/spreadsheets/d/1S50it_q1BahpZCPW8dbuN7DyOMnyDgFIg76xIDSoXEk/export?format=csv&gid=1056617222" ∧
    to_csv_export_url "https://docs.google.com/spreadsheets/d/e/2PACX-1vTabcDEF123/pubhtml"
      = "https://docs.google.com/spreadsheets/d/e/export?format=csv&gid=0" ∧
    to_csv_export_url "https://docs.google.com/spreadsheets/d/e/2PACX-1vTabcDEF123/pubhtml"
      ≠ "https://docs.google.com/spreadsheets/d/e/2PACX-1vTabcDEF123/pub?gid=0&single=true&output=csv" ∧
    to_csv_export_url "https://example.com/foo" = "https://example.com/foo" := by
  exact ⟨rfl, rfl, by decide, rfl⟩

/-- C6 counterexample to the claim as stated: with columns
`["Family", "FAMILY"]` both match the canonical name `Family`
case-insensitively, and the code resolves to the *last* one, `FAMILY`,
not the first. -/
theorem C6_counterexample :
    colmapGet (map_case_insensitive dfFam2 ["Family"]) "Family" = some "FAMILY" ∧
    ("FAMILY" : String) ≠ "Family" := by
  exact ⟨rfl, by decide⟩

/-- C6 (amended).  Column resolution matches canonical names against the
actual headers case-insensitively, and when several actual headers match
the same canonical name the *last* such header in table column order
wins (the dict comprehension `{c.lower(): c}` lets later columns
overwrite earlier ones); a canonical name with no case-insensitive match
is recorded as null, not an error. -/
theorem C6_amended_last_match_wins (df : DataFrame) (required : List String)
    (name : String) (hmem : name ∈ required) :
    colmapGet (map_case_insensitive df required) name
        = df.cols.reverse.find? (fun c => pyLowerS c == pyLowerS name) ∧
    ((∀ c ∈ df.cols, pyLowerS c ≠ pyLowerS name) →
      colmapGet (map_case_insensitive df required) name = none) := by
  have h1 := (colmapGet_mci df required name hmem).trans (lower_map_get_eq df.cols (pyLowerS name))
  refine ⟨h1, fun hnone => ?_⟩
  rw [h1]
  apply List.find?_eq_none.mpr
  intro c hc
  simpa using hnone c (List.mem_reverse.mp hc)

/-- C6 witness: the amended theorem applied to the concrete
case-colliding table `dfFam2`. -/
theorem C6_witness :
    colmapGet (map_case_insensitive dfFam2 ["Family"]) "Family"
      = dfFam2.cols.reverse.find? (fun c => pyLowerS c == pyLowerS "Family") :=
  (C6_amended_last_match_wins dfFam2 ["Family"] "Family" (by decide)).1

/-! ## firstIdx lemmas -/

theorem firstIdx_some_get (p : String → Bool) (l : List String) (i : Nat)
    (h : firstIdx p l = some i) : ∃ x, l[i]? = some x ∧ p x = true := by
  induction l generalizing i with
  | nil => simp [firstIdx] at h
  | cons a l ih =>
    rw [firstIdx] at h
    by_cases hpa : p a = true
    · rw [if_pos hpa] at h
      simp only [Option.some.injEq] at h
      subst h
      exact ⟨a, by simp, hpa⟩
    · rw [if_neg hpa] at h
      cases hfi : firstIdx p l with
      | none => rw [hfi] at h; simp at h
      | some j =>
        rw [hfi] at h
        simp only [Option.map_some', Option.some.injEq] at h
        subst h
        obtain ⟨x, hx, hpx⟩ := ih j hfi
        exact ⟨x, by simpa using hx, hpx⟩

theorem firstIdx_eq_none (p : String → Bool) (l : List String) :
    firstIdx p l = none ↔ ∀ x ∈ l, p x = false := by
  induction l with
  | nil => simp [firstIdx]
  | cons a l ih =>
    rw [firstIdx]
    by_cases hpa : p a = true
    · simp [hpa]
    · have hpa2 : p a = false := by simpa using hpa
      simp [hpa2, ih]

theorem firstIdx_append_some (p : String → Bool) (l l2 : List String) (i : Nat)
    (h : firstIdx p l = some i) : firstIdx p (l ++ l2) = some i := by
  induction l generalizing i with
  | nil => simp [firstIdx] at h
  | cons a l ih =>
    rw [List.cons_append, firstIdx]
    rw [firstIdx] at h
    by_cases hpa : p a = true
    · rw [if_pos hpa] at h ⊢; exact h
    · rw [if_neg hpa] at h ⊢
      cases hfi : firstIdx p l with
      | none => rw [hfi] at h; simp at h
      | some j =>
        rw [hfi] at h
        rw [ih j hfi]
        exact h

theorem firstIdx_append_none (p : String → Bool) (l : List String) (c : String)
    (h : firstIdx p l = none) :
    firstIdx p (l ++ [c]) = if p c then some l.length else none := by
  induction l with
  | nil =>
    simp only [List.nil_append, List.length_nil, firstIdx]
    by_cases hpc : p c = true
    · rw [if_pos hpc, if_pos hpc]
    · rw [if_neg hpc, if_neg hpc]; rfl
  | cons a l ih =>
    rw [firstIdx] at h
    by_cases hpa : p a = true
    · rw [if_pos hpa] at h; simp at h
    · rw [if_neg hpa] at h
      have hl : firstIdx p l = none := by
        cases hfi : firstIdx p l with
        | none => rfl
        | some j => rw [hfi] at h; simp at h
      rw [List.cons_append, firstIdx, if_neg hpa, ih hl]
      by_cases hpc : p c = true
      · rw [if_pos hpc, if_pos hpc]; simp [List.length_cons]
      · rw [if_neg hpc, if_neg hpc]; rfl

/-! ## getD lemmas -/

theorem getD_append_none (r : List (Option String)) (j : Nat) :
    (r ++ [none]).getD j none = r.getD j none := by
  rw [List.getD_eq_getElem?_getD, List.getD_eq_getElem?_getD]
  by_cases hj : j < r.length
  · rw [List.getElem?_append_left hj]
  · push_neg at hj
    rw [List.getElem?_append_right hj, List.getElem?_eq_none hj]
    cases hm : j - r.length with
    | zero => simp
    | succ k => simp

theorem getD_set_self_none (r : List (Option String)) (i : Nat) :
    (r.set i none).getD i none = none := by
  rw [List.getD_eq_getElem?_getD, List.getElem?_set]
  rw [if_pos rfl]
  by_cases h : i < r.length
  · rw [if_pos h]; rfl
  · rw [if_neg h]; rfl

theorem getD_set_ne (r : List (Option String)) (i j : Nat) (v : Option String)
    (hij : i ≠ j) : (r.set i v).getD j none = r.getD j none := by
  rw [List.getD_eq_getElem?_getD, List.getD_eq_getElem?_getD, List.getElem?_set,
    if_neg hij]

/-! ## setColNone lemmas -/

theorem mem_setColNone_cols (d : DataFrame) (h : String) (a : String)
    (ha : a ∈ d.cols) : a ∈ (setColNone d h).cols := by
  unfold setColNone
  cases hidx : firstIdx (fun c => c == h) d.cols with
  | some i => exact ha
  | none => exact List.mem_append_left _ ha

theorem self_mem_setColNone_cols (d : DataFrame) (h : String) :
    h ∈ (setColNone d h).cols := by
  unfold setColNone
  cases hidx : firstIdx (fun c => c == h) d.cols with
  | some i =>
    obtain ⟨x, hx, hpx⟩ := firstIdx_some_get _ _ _ hidx
    have hxh : x = h := by simpa using hpx
    subst hxh
    exact List.getElem?_mem hx
  | none => simp

theorem rows_length_setColNone (d : DataFrame) (h : String) :
    (setColNone d h).rows.length = d.rows.length := by
  unfold setColNone
  cases hidx : firstIdx (fun c => c == h) d.cols with
  | some i => simp
  | none => simp

theorem dfWF_setColNone (d : DataFrame) (h : String) (hwf : dfWF d) :
    dfWF (setColNone d h) := by
  unfold setColNone
  cases hidx : firstIdx (fun c => c == h) d.cols with
  | some i =>
    intro r hr
    simp only [List.mem_map] at hr
    obtain ⟨r0, hr0, rfl⟩ := hr
    simpa using hwf r0 hr0
  | none =>
    intro r hr
    simp only [List.mem_map] at hr
    obtain ⟨r0, hr0, rfl⟩ := hr
    simp [hwf r0 hr0]

theorem getColValues_setColNone_self (d : DataFrame) (h : String) (hwf : dfWF d) :
    getColValues (setColNone d h) h = List.replicate d.rows.length none := by
  unfold setColNone
  cases hidx : firstIdx (fun c => c == h) d.cols with
  | some i =>
    unfold getColValues cellAt
    simp only [hidx, List.map_map]
    apply List.eq_replicate_iff.mpr
    refine ⟨by simp, ?_⟩
    intro b hb
    simp only [List.mem_map, Function.comp] at hb
    obtain ⟨r0, _, rfl⟩ := hb
    exact getD_set_self_none r0 i
  | none =>
    unfold getColValues cellAt
    have hfi : firstIdx (fun c => c == h) (d.cols ++ [h]) = some d.cols.length := by
      rw [firstIdx_append_none _ _ _ hidx]
      simp
    simp only [hfi, List.map_map]
    apply List.eq_replicate_iff.mpr
    refine ⟨by simp, ?_⟩
    intro b hb
    simp only [List.mem_map, Function.comp] at hb
    obtain ⟨r0, hr0, rfl⟩ := hb
    rw [List.getD_eq_getElem?_getD,
      List.getElem?_append_right (by rw [hwf r0 hr0]),
      hwf r0 hr0]
    simp

theorem getColValues_setColNone_ne (d : DataFrame) (hp hq : String) (hne : hp ≠ hq) :
    getColValues (setColNone d hp) hq = getColValues d hq := by
  unfold setColNone
  cases hidx : firstIdx (fun c => c == hp) d.cols with
  | some i =>
    unfold getColValues cellAt
    simp only [List.map_map]
    apply List.map_congr_left
    intro r0 _
    simp only [Function.comp]
    cases hj : firstIdx (fun c => c == hq) d.cols with
    | none => rfl
    | some j =>
      have hij : i ≠ j := by
        intro hcontra
        subst hcontra
        obtain ⟨x, hx, hpx⟩ := firstIdx_some_get _ _ _ hidx
        obtain ⟨y, hy, hpy⟩ := firstIdx_some_get _ _ _ hj
        rw [hx] at hy
        have hxy : x = y := by simpa using hy
        have h1 : x = hp := by simpa using hpx
        have h2 : y = hq := by simpa using hpy
        exact hne (h1 ▸ h2 ▸ hxy ▸ rfl)
      exact getD_set_ne r0 i j none hij
  | none =>
    unfold getColValues cellAt
    simp only [List.map_map]
    apply List.map_congr_left
    intro r0 _
    simp only [Function.comp]
    have hfi : firstIdx (fun c => c == hq) (d.cols ++ [hp])
        = firstIdx (fun c => c == hq) d.cols := by
      cases hj : firstIdx (fun c => c == hq) d.cols with
      | some j => exact firstIdx_append_some _ _ _ _ hj
      | none =>
        rw [firstIdx_append_none _ _ _ hj]
        have : (hp == hq) = false := by simpa using hne
        rw [this]
        rfl
    rw [hfi]
    cases hj : firstIdx (fun c => c == hq) d.cols with
    | none => rfl
    | some j => exact getD_append_none r0 j

/-! ## Lemmas about the select_order_and_rename loop -/

theorem setColNone_preserve_null (d : DataFrame) (h0 h : String) (hwf : dfWF d)
    (hnull : getColValues d h = List.replicate d.rows.length none) :
    getColValues (setColNone d h0) h = List.replicate d.rows.length none := by
  by_cases hne : h0 = h
  · subst hne
    exact getColValues_setColNone_self d h0 hwf
  · rw [getColValues_setColNone_ne d h0 h hne]
    exact hnull

theorem sar_fold_rows_length (cm : List (String × Option String)) (H : List String) :
    ∀ (d : DataFrame) (cs : List String),
      ((H.foldl (sar_step cm) (d, cs)).1).rows.length = d.rows.length := by
  induction H with
  | nil => intro d cs; rfl
  | cons h H ih =>
    intro d cs
    rw [List.foldl_cons]
    cases hg : colmapGet cm h with
    | some a =>
      simp only [sar_step, hg]
      by_cases hcond : a ≠ "" ∧ a ∈ d.cols
      · rw [if_pos hcond]; exact ih d (cs ++ [a])
      · rw [if_neg hcond, ih _ _, rows_length_setColNone]
    | none =>
      simp only [sar_step, hg]
      rw [ih _ _, rows_length_setColNone]

theorem sar_fold_wf (cm : List (String × Option String)) (H : List String) :
    ∀ (d : DataFrame) (cs : List String), dfWF d →
      dfWF ((H.foldl (sar_step cm) (d, cs)).1) := by
  induction H with
  | nil => intro d cs hwf; exact hwf
  | cons h H ih =>
    intro d cs hwf
    rw [List.foldl_cons]
    cases hg : colmapGet cm h with
    | some a =>
      simp only [sar_step, hg]
      by_cases hcond : a ≠ "" ∧ a ∈ d.cols
      · rw [if_pos hcond]; exact ih d (cs ++ [a]) hwf
      · rw [if_neg hcond]; exact ih _ _ (dfWF_setColNone d h hwf)
    | none =>
      simp only [sar_step, hg]
      exact ih _ _ (dfWF_setColNone d h hwf)

theorem sar_fold_mem_cols (cm : List (String × Option String)) (H : List String) :
    ∀ (d : DataFrame) (cs : List String) (a : String), a ∈ d.cols →
      a ∈ ((H.foldl (sar_step cm) (d, cs)).1).cols := by
  induction H with
  | nil => intro d cs a ha; exact ha
  | cons h H ih =>
    intro d cs a ha
    rw [List.foldl_cons]
    cases hg : colmapGet cm h with
    | some b =>
      simp only [sar_step, hg]
      by_cases hcond : b ≠ "" ∧ b ∈ d.cols
      · rw [if_pos hcond]; exact ih d (cs ++ [b]) a ha
      · rw [if_neg hcond]; exact ih _ _ a (mem_setColNone_cols d h a ha)
    | none =>
      simp only [sar_step, hg]
      exact ih _ _ a (mem_setColNone_cols d h a ha)

theorem sar_fold_snd (cm : List (String × Option String)) (H : List String) :
    ∀ (d : DataFrame) (cs : List String),
      (∀ h ∈ H, ∀ a, colmapGet cm h = some a → a ≠ "" ∧ a ∈ d.cols) →
      (H.foldl (sar_step cm) (d, cs)).2 = cs ++ H.map (sar_pick cm) := by
  induction H with
  | nil => intro d cs _; simp
  | cons h H ih =>
    intro d cs hres
    rw [List.foldl_cons, List.map_cons]
    cases hg : colmapGet cm h with
    | some a =>
      have hcond := hres h (List.mem_cons_self h H) a hg
      simp only [sar_step, hg]
      rw [if_pos hcond,
        ih d (cs ++ [a]) (fun h2 hh2 a2 hg2 => hres h2 (List.mem_cons_of_mem h hh2) a2 hg2)]
      simp [sar_pick, hg]
    | none =>
      simp only [sar_step, hg]
      have hres2 : ∀ h2 ∈ H, ∀ a2, colmapGet cm h2 = some a2 →
          a2 ≠ "" ∧ a2 ∈ (setColNone d h).cols := by
        intro h2 hh2 a2 hg2
        obtain ⟨hne, hmem⟩ := hres h2 (List.mem_cons_of_mem h hh2) a2 hg2
        exact ⟨hne, mem_setColNone_cols d h a2 hmem⟩
      rw [ih (setColNone d h) (cs ++ [h]) hres2]
      simp [sar_pick, hg]

theorem sar_fold_preserve_null (cm : List (String × Option String)) (H : List String)
    (h : String) :
    ∀ (d : DataFrame) (cs : List String), dfWF d →
      getColValues d h = List.replicate d.rows.length none →
      getColValues ((H.foldl (sar_step cm) (d, cs)).1) h
        = List.replicate d.rows.length none := by
  induction H with
  | nil => intro d cs _ hnull; exact hnull
  | cons h0 H ih =>
    intro d cs hwf hnull
    rw [List.foldl_cons]
    have hstep : ∀ cs2 : List String,
        getColValues ((H.foldl (sar_step cm) (setColNone d h0, cs2)).1) h
          = List.replicate d.rows.length none := by
      intro cs2
      have h1 : getColValues (setColNone d h0) h
          = List.replicate ((setColNone d h0).rows.length) none := by
        rw [rows_length_setColNone]
        exact setColNone_preserve_null d h0 h hwf hnull
      have h2 := ih (setColNone d h0) cs2 (dfWF_setColNone d h0 hwf) h1
      rw [rows_length_setColNone] at h2
      exact h2
    cases hg : colmapGet cm h0 with
    | some a =>
      simp only [sar_step, hg]
      by_cases hcond : a ≠ "" ∧ a ∈ d.cols
      · rw [if_pos hcond]; exact ih d _ hwf hnull
      · rw [if_neg hcond]; exact hstep _
    | none =>
      simp only [sar_step, hg]
      exact hstep _

theorem sar_fold_unresolved_null (cm : List (String × Option String)) (H : List String)
    (h : String) (hg : colmapGet cm h = none) :
    ∀ (d : DataFrame) (cs : List String), dfWF d → h ∈ H →
      getColValues ((H.foldl (sar_step cm) (d, cs)).1) h
        = List.replicate d.rows.length none := by
  induction H with
  | nil => intro d cs _ hmem; cases hmem
  | cons h0 H ih =>
    intro d cs hwf hmem
    rw [List.foldl_cons]
    by_cases heq : h0 = h
    · subst heq
      simp only [sar_step, hg]
      have h1 : getColValues (setColNone d h0) h0
          = List.replicate ((setColNone d h0).rows.length) none := by
        rw [rows_length_setColNone]
        exact getColValues_setColNone_self d h0 hwf
      have h2 := sar_fold_preserve_null cm H h0 (setColNone d h0) (cs ++ [h0])
        (dfWF_setColNone d h0 hwf) h1
      rw [rows_length_setColNone] at h2
      exact h2
    · have hmem2 : h ∈ H := by
        rcases List.mem_cons.mp hmem with rfl | hm
        · exact absurd rfl heq
        · exact hm
      have hstep : ∀ cs2 : List String,
          getColValues ((H.foldl (sar_step cm) (setColNone d h0, cs2)).1) h
            = List.replicate d.rows.length none := by
        intro cs2
        have h2 := ih (setColNone d h0) cs2 (dfWF_setColNone d h0 hwf) hmem2
        rw [rows_length_setColNone] at h2
        exact h2
      cases hg0 : colmapGet cm h0 with
      | some a =>
        simp only [sar_step, hg0]
        by_cases hcond : a ≠ "" ∧ a ∈ d.cols
        · rw [if_pos hcond]; exact ih d _ hwf hmem2
        · rw [if_neg hcond]; exact hstep _
      | none =>
        simp only [sar_step, hg0]
        exact hstep _

theorem sar_fold_unresolved_mem (cm : List (String × Option String)) (H : List String)
    (h : String) (hg : colmapGet cm h = none) :
    ∀ (d : DataFrame) (cs : List String), h ∈ H →
      h ∈ ((H.foldl (sar_step cm) (d, cs)).1).cols := by
  induction H with
  | nil => intro d cs hmem; cases hmem
  | cons h0 H ih =>
    intro d cs hmem
    rw [List.foldl_cons]
    by_cases heq : h0 = h
    · subst heq
      simp only [sar_step, hg]
      exact sar_fold_mem_cols cm H _ _ h0 (self_mem_setColNone_cols d h0)
    · have hmem2 : h ∈ H := by
        rcases List.mem_cons.mp hmem with rfl | hm
        · exact absurd rfl heq
        · exact hm
      cases hg0 : colmapGet cm h0 with
      | some a =>
        simp only [sar_step, hg0]
        by_cases hcond : a ≠ "" ∧ a ∈ d.cols
        · rw [if_pos hcond]; exact ih d _ hmem2
        · rw [if_neg hcond]; exact ih _ _ hmem2
      | none =>
        simp only [sar_step, hg0]
        exact ih _ _ hmem2

/-! ## The canonical headers are pairwise distinct case-insensitively -/

theorem OH_lower_inj : ∀ h ∈ OUTPUT_HEADERS, ∀ h2 ∈ OUTPUT_HEADERS,
    pyLowerS h = pyLowerS h2 → h = h2 := by decide

theorem OH_lower_ne_empty : ∀ h ∈ OUTPUT_HEADERS, pyLowerS h ≠ "" := by decide

theorem OH_sub_required : ∀ h ∈ OUTPUT_HEADERS, h ∈ APP_REQUIRED := by
  intro h hh
  exact List.mem_append_left _ hh

/-- Facts about a header resolved by the app's column map: the resolved
label has the same lower-casing, lives in the table, and is nonempty. -/
theorem mci_resolved_facts (df : DataFrame) (h a : String)
    (hh : h ∈ OUTPUT_HEADERS)
    (hg : colmapGet (map_case_insensitive df APP_REQUIRED) h = some a) :
    pyLowerS a = pyLowerS h ∧ a ∈ df.cols ∧ a ≠ "" := by
  rw [colmapGet_mci df APP_REQUIRED h (OH_sub_required h hh),
    lower_map_get_eq] at hg
  have hpa : (pyLowerS a == pyLowerS h) = true :=
    @List.find?_some String (fun c => pyLowerS c == pyLowerS h) a df.cols.reverse hg
  have hlow : pyLowerS a = pyLowerS h := by simpa using hpa
  have hmem : a ∈ df.cols := List.mem_reverse.mp (List.mem_of_find?_eq_some hg)
  refine ⟨hlow, hmem, ?_⟩
  intro hempty
  subst hempty
  exact OH_lower_ne_empty h hh (by simpa using hlow.symm)

theorem renamePairs_mem (cm : List (String × Option String)) (q : String × String)
    (hq : q ∈ renamePairs cm) :
    ∃ h2 ∈ OUTPUT_HEADERS, colmapGet cm h2 = some q.1 ∧ q.1 ≠ "" ∧ q.1 ≠ h2 ∧ q.2 = h2 := by
  unfold renamePairs at hq
  rcases List.mem_filterMap.mp hq with ⟨h2, hh2, hfn⟩
  refine ⟨h2, hh2, ?_⟩
  cases hg : colmapGet cm h2 with
  | none => rw [hg] at hfn; cases hfn
  | some a =>
    rw [hg] at hfn
    change (if a ≠ "" ∧ a ≠ h2 then some (a, h2) else none) = some q at hfn
    by_cases hcond : a ≠ "" ∧ a ≠ h2
    · rw [if_pos hcond] at hfn
      cases hfn
      exact ⟨rfl, hcond.1, hcond.2, rfl⟩
    · rw [if_neg hcond] at hfn
      cases hfn

theorem renamePairs_mem_of (cm : List (String × Option String)) (h a : String)
    (hh : h ∈ OUTPUT_HEADERS) (hg : colmapGet cm h = some a)
    (hne : a ≠ "") (hna : a ≠ h) : (a, h) ∈ renamePairs cm := by
  unfold renamePairs
  apply List.mem_filterMap.mpr
  refine ⟨h, hh, ?_⟩
  rw [hg]
  change (if a ≠ "" ∧ a ≠ h then some (a, h) else none) = some (a, h)
  rw [if_pos ⟨hne, hna⟩]

/-- For the app's column map, renaming undoes the selection label: the
column selected for header `h` ends up labelled `h` again. -/
theorem applyRename_pick (df : DataFrame) (h : String) (hh : h ∈ OUTPUT_HEADERS) :
    applyRename (renamePairs (map_case_insensitive df APP_REQUIRED))
      (sar_pick (map_case_insensitive df APP_REQUIRED) h) = h := by
  set cm := map_case_insensitive df APP_REQUIRED with hcm
  cases hg : colmapGet cm h with
  | none =>
    have hpick : sar_pick cm h = h := by unfold sar_pick; rw [hg]
    rw [hpick]
    unfold applyRename dictGetLast
    have hnone : (renamePairs cm).reverse.find? (fun q => q.1 == h) = none := by
      apply List.find?_eq_none.mpr
      intro q hqrev
      obtain ⟨h2, hh2, hg2, hne2, hna2, hq2⟩ :=
        renamePairs_mem cm q (List.mem_reverse.mp hqrev)
      intro hbeq
      have hq1 : q.1 = h := by simpa using hbeq
      obtain ⟨hlow2, _, _⟩ := mci_resolved_facts df h2 q.1 hh2 hg2
      have hhh2 : h = h2 := OH_lower_inj h hh h2 hh2 (by rw [← hq1]; exact hlow2)
      rw [hhh2] at hg
      rw [hg] at hg2
      cases hg2
    rw [hnone]
  | some a =>
    obtain ⟨hlow, hmemdf, hne⟩ := mci_resolved_facts df h a hh hg
    have hpick : sar_pick cm h = a := by unfold sar_pick; rw [hg]
    rw [hpick]
    have huniq : ∀ q ∈ renamePairs cm, q.1 = a → q.2 = h := by
      intro q hq hq1
      obtain ⟨h2, hh2, hg2, _, _, hq2⟩ := renamePairs_mem cm q hq
      obtain ⟨hlow2, _, _⟩ := mci_resolved_facts df h2 q.1 hh2 hg2
      have : h2 = h := by
        apply OH_lower_inj h2 hh2 h hh
        rw [← hlow2, hq1, hlow]
      rw [hq2, this]
    by_cases hah : a = h
    · subst hah
      unfold applyRename dictGetLast
      have hnone : (renamePairs cm).reverse.find? (fun q => q.1 == a) = none := by
        apply List.find?_eq_none.mpr
        intro q hqrev
        obtain ⟨h2, hh2, hg2, hne2, hna2, hq2⟩ :=
          renamePairs_mem cm q (List.mem_reverse.mp hqrev)
        intro hbeq
        have hq1 : q.1 = a := by simpa using hbeq
        obtain ⟨hlow2, _, _⟩ := mci_resolved_facts df h2 q.1 hh2 hg2
        have hh2a : h2 = a := OH_lower_inj h2 hh2 a hh (by rw [← hq1]; exact hlow2.symm)
        exact hna2 (hq1.trans hh2a.symm)
      rw [hnone]
    · have hmem : (a, h) ∈ renamePairs cm := renamePairs_mem_of cm h a hh hg hne hah
      unfold applyRename dictGetLast
      have hsome : ((renamePairs cm).reverse.find? (fun q => q.1 == a)).isSome = true := by
        apply List.find?_isSome.mpr
        exact ⟨(a, h), List.mem_reverse.mpr hmem, by simp⟩
      cases hfind : (renamePairs cm).reverse.find? (fun q => q.1 == a) with
      | none => rw [hfind] at hsome; cases hsome
      | some q =>
        have hq1 : q.1 = a := by simpa using List.find?_some hfind
        have hqmem : q ∈ renamePairs cm :=
          List.mem_reverse.mp (List.mem_of_find?_eq_some hfind)
        show q.2 = h
        exact huniq q hqmem hq1

/-- The projected table the app builds always carries exactly the
canonical output schema as its columns, in order. -/
theorem sar_cols_eq (df : DataFrame) :
    ((select_order_and_rename df (map_case_insensitive df APP_REQUIRED)).1).cols
      = OUTPUT_HEADERS := by
  set cm := map_case_insensitive df APP_REQUIRED with hcm
  have hres : ∀ h ∈ OUTPUT_HEADERS, ∀ a, colmapGet cm h = some a → a ≠ "" ∧ a ∈ df.cols := by
    intro h hh a hg
    obtain ⟨_, hmem, hne⟩ := mci_resolved_facts df h a hh hg
    exact ⟨hne, hmem⟩
  have hsnd := sar_fold_snd cm OUTPUT_HEADERS df [] hres
  show ((OUTPUT_HEADERS.foldl (sar_step cm) (df, [])).2.map (applyRename (renamePairs cm)))
    = OUTPUT_HEADERS
  rw [hsnd, List.nil_append, List.map_map]
  nth_rewrite 2 [← List.map_id OUTPUT_HEADERS]
  apply List.map_congr_left
  intro h hh
  exact applyRename_pick df h hh

theorem cellAt_of_firstIdx (cols : List String) (r : List (Option String)) (n : String)
    (i : Nat) (hi : firstIdx (fun c => c == n) cols = some i) :
    cellAt cols r n = r.getD i none := by
  unfold cellAt
  rw [hi]

theorem sar_rows_length (d : DataFrame) (cm : List (String × Option String)) :
    ((select_order_and_rename d cm).1).rows.length = d.rows.length := by
  have hrows : (select_order_and_rename d cm).1.rows
      = ((OUTPUT_HEADERS.foldl (sar_step cm) (d, [])).1).rows.map
        (fun r => ((OUTPUT_HEADERS.foldl (sar_step cm) (d, [])).2).map
          (fun n => cellAt ((OUTPUT_HEADERS.foldl (sar_step cm) (d, [])).1).cols r n)) := rfl
  rw [hrows, List.length_map]
  exact sar_fold_rows_length cm OUTPUT_HEADERS d []

/-- In the projected table, a canonical header unresolved by the app's
column map carries the all-null synthesized column. -/
theorem getColValues_ordered_unresolved (df : DataFrame) (h : String)
    (hwf : dfWF df) (hh : h ∈ OUTPUT_HEADERS)
    (hg : colmapGet (map_case_insensitive df APP_REQUIRED) h = none) :
    getColValues ((select_order_and_rename df (map_case_insensitive df APP_REQUIRED)).1) h
      = List.replicate df.rows.length none := by
  set cm := map_case_insensitive df APP_REQUIRED with hcm
  have hres : ∀ h2 ∈ OUTPUT_HEADERS, ∀ a, colmapGet cm h2 = some a →
      a ≠ "" ∧ a ∈ df.cols := by
    intro h2 hh2 a hga
    obtain ⟨_, hmem, hne⟩ := mci_resolved_facts df h2 a hh2 hga
    exact ⟨hne, hmem⟩
  have hsnd := sar_fold_snd cm OUTPUT_HEADERS df [] hres
  have hsel : (OUTPUT_HEADERS.foldl (sar_step cm) (df, [])).2
      = OUTPUT_HEADERS.map (sar_pick cm) := by
    rw [hsnd, List.nil_append]
  cases hk : firstIdx (fun c => c == h) OUTPUT_HEADERS with
  | none =>
    have := (firstIdx_eq_none _ _).mp hk h hh
    simp at this
  | some k =>
    have hOHk : OUTPUT_HEADERS[k]? = some h := by
      obtain ⟨x, hx, hpx⟩ := firstIdx_some_get _ _ _ hk
      have hxh : x = h := by simpa using hpx
      rwa [hxh] at hx
    have hrows : (select_order_and_rename df cm).1.rows
        = ((OUTPUT_HEADERS.foldl (sar_step cm) (df, [])).1).rows.map
          (fun r => ((OUTPUT_HEADERS.foldl (sar_step cm) (df, [])).2).map
            (fun n => cellAt ((OUTPUT_HEADERS.foldl (sar_step cm) (df, [])).1).cols r n)) := rfl
    have hcols : (select_order_and_rename df cm).1.cols = OUTPUT_HEADERS := sar_cols_eq df
    unfold getColValues
    rw [hcols, hrows, List.map_map]
    have hnull := sar_fold_unresolved_null cm OUTPUT_HEADERS h hg df [] hwf hh
    rw [← hnull]
    unfold getColValues
    apply List.map_congr_left
    intro r _
    simp only [Function.comp]
    rw [cellAt_of_firstIdx OUTPUT_HEADERS _ h k hk,
      List.getD_eq_getElem?_getD, List.getElem?_map, hsel, List.getElem?_map, hOHk]
    have hpick : sar_pick cm h = h := by unfold sar_pick; rw [hg]
    simp [hpick]

/-- C4 counterexample to the claim as stated: projecting the sample
table yields exactly the `OUTPUT_HEADERS` columns — there is no
prepended Query/"Your input" column and no match-kind column. -/
theorem C4_counterexample :
    ((select_order_and_rename dfAB cmAB).1).cols = OUTPUT_HEADERS ∧
    "Your input" ∉ ((select_order_and_rename dfAB cmAB).1).cols ∧
    OUTPUT_HEADERS.head? = some "New Item No." := by
  refine ⟨by decide, by decide, by decide⟩

/-- C4 (amended).  For every invocation of the projection step with the
column map the app computes, the final projected table consists of
exactly the OutputSchema columns in their fixed order, and nothing else:
no Query/"Your input" column and no match-kind/score column is
prepended (no such columns exist anywhere in the app's tables). -/
theorem C4_amended_projection_schema (df : DataFrame) :
    ((select_order_and_rename df (map_case_insensitive df APP_REQUIRED)).1).cols
        = OUTPUT_HEADERS ∧
    "Your input" ∉
      ((select_order_and_rename df (map_case_insensitive df APP_REQUIRED)).1).cols := by
  refine ⟨sar_cols_eq df, ?_⟩
  rw [sar_cols_eq df]
  decide

/-- C9 (confirmed).  Every OutputSchema column with no case-insensitive
counterpart among the table's headers is synthesized in the projected
output: the column is present and all its values are null, so the
output schema does not depend on which source columns exist. -/
theorem C9_missing_column_null (df : DataFrame) (h : String)
    (hwf : dfWF df) (hh : h ∈ OUTPUT_HEADERS)
    (habsent : ∀ c ∈ df.cols, pyLowerS c ≠ pyLowerS h) :
    h ∈ ((select_order_and_rename df (map_case_insensitive df APP_REQUIRED)).1).cols ∧
    getColValues ((select_order_and_rename df (map_case_insensitive df APP_REQUIRED)).1) h
      = List.replicate df.rows.length none := by
  have hg : colmapGet (map_case_insensitive df APP_REQUIRED) h = none := by
    rw [colmapGet_mci df APP_REQUIRED h (OH_sub_required h hh), lower_map_get_eq]
    apply List.find?_eq_none.mpr
    intro c hc
    simpa using habsent c (List.mem_reverse.mp hc)
  refine ⟨?_, getColValues_ordered_unresolved df h hwf hh hg⟩
  rw [sar_cols_eq df]
  exact hh

/-- C9 witness: the sample table has no `Family` column; the projected
output contains `Family` with the single row null. -/
theorem C9_witness :
    "Family" ∈ ((select_order_and_rename dfAB (map_case_insensitive dfAB APP_REQUIRED)).1).cols ∧
    getColValues ((select_order_and_rename dfAB (map_case_insensitive dfAB APP_REQUIRED)).1)
        "Family" = List.replicate dfAB.rows.length none :=
  C9_missing_column_null dfAB "Family" (by decide) (by decide) (by decide)

/-- C10 (confirmed).  `select_order_and_rename` mutates its argument:
for a canonical header unresolved in the column map, the post-state of
the caller's DataFrame (the second component of the embedding, which
models the in-place `df[h] = None` assignments) contains an all-null
column with that header, so whenever that header was not already a
column, the argument does not come back with the column set it was
passed in with. -/
theorem C10_inplace_mutation (df : DataFrame) (cm : List (String × Option String))
    (h : String) (hwf : dfWF df) (hh : h ∈ OUTPUT_HEADERS)
    (hg : colmapGet cm h = none) :
    h ∈ ((select_order_and_rename df cm).2).cols ∧
    getColValues ((select_order_and_rename df cm).2) h
        = List.replicate df.rows.length none ∧
    (h ∉ df.cols → ((select_order_and_rename df cm).2).cols ≠ df.cols) := by
  have h2 : (select_order_and_rename df cm).2
      = (OUTPUT_HEADERS.foldl (sar_step cm) (df, [])).1 := rfl
  rw [h2]
  have hmem := sar_fold_unresolved_mem cm OUTPUT_HEADERS h hg df [] hh
  refine ⟨hmem, sar_fold_unresolved_null cm OUTPUT_HEADERS h hg df [] hwf hh, ?_⟩
  intro hnot hcontra
  rw [hcontra] at hmem
  exact hnot hmem

/-- C10 witness: projecting the sample table adds a null `Family`
column to the argument itself, changing its column set. -/
theorem C10_witness :
    "Family" ∈ ((select_order_and_rename dfAB cmAB).2).cols ∧
    ((select_order_and_rename dfAB cmAB).2).cols ≠ dfAB.cols := by
  have h := C10_inplace_mutation dfAB cmAB "Family" (by decide) (by decide) (by decide)
  exact ⟨h.1, h.2.2 (by decide)⟩

/-!
## Claims C1, C2, C3: the Step 3 lookup
-/

/-- C1 counterexample to the claim as stated: the token `ZZZ` matches no
reference row; the final result table contains *zero* rows for it — no
placeholder row, no "No match" tag — and the token is instead reported
in the separate `not_found` list. -/
theorem C1_counterexample :
    (step3_ordered workAB "OLD Item-variant" "Ean no." (parse_pasted_ids "ZZZ") cmAB).rows
        = [] ∧
    step3_not_found workAB "OLD Item-variant" "Ean no." (parse_pasted_ids "ZZZ")
        = ["ZZZ"] := by
  refine ⟨by decide, by decide⟩

/-- C1 (amended).  The final result table contains exactly one row per
matched reference row and nothing else: its row count equals the row
count of the mask-filtered `matches` table, so a token matching no
reference row contributes no row at all; such a token is instead
collected in the `not_found` list. -/
theorem C1_amended_no_placeholder_rows (work : DataFrame) (old_col ean_col : String)
    (ids : List String) (cm : List (String × Option String)) (x : String) :
    (step3_ordered work old_col ean_col ids cm).rows.length
        = (step3_matches work old_col ean_col ids).rows.length ∧
    (x ∈ ids → x ∉ step3_matched_keys work old_col ean_col ids →
      x ∈ step3_not_found work old_col ean_col ids) := by
  constructor
  · exact sar_rows_length (step3_matches work old_col ean_col ids) cm
  · intro hx hnot
    unfold step3_not_found
    apply List.mem_filter.mpr
    refine ⟨hx, ?_⟩
    simp [hnot]

/-- C1 witness: the amended theorem at the concrete unmatched token
`ZZZ` against the sample table. -/
theorem C1_witness :
    (step3_ordered workAB "OLD Item-variant" "Ean no." ["ZZZ"] cmAB).rows.length
        = (step3_matches workAB "OLD Item-variant" "Ean no." ["ZZZ"]).rows.length ∧
    "ZZZ" ∈ step3_not_found workAB "OLD Item-variant" "Ean no." ["ZZZ"] := by
  have h := C1_amended_no_placeholder_rows workAB "OLD Item-variant" "Ean no."
    ["ZZZ"] cmAB "ZZZ"
  exact ⟨h.1, h.2 (by decide) (by decide)⟩

/-- C2 counterexample to the claim as stated: reference key `ABC` and
token `abc` differ only in letter case, yet the lookup finds nothing —
matching is case-sensitive, not case-insensitive. -/
theorem C2_counterexample :
    pyLowerS "abc" = pyLowerS "ABC" ∧
    (step3_matches workAB "OLD Item-variant" "Ean no." (parse_pasted_ids "abc")).rows
        = [] ∧
    step3_not_found workAB "OLD Item-variant" "Ean no." (parse_pasted_ids "abc")
        = ["abc"] := by
  refine ⟨by decide, by decide, by decide⟩

/-- C2 (amended).  Matching is whitespace-insensitive but
case-sensitive: both sides are stripped of surrounding whitespace (the
token by `parse_pasted_ids`, the key columns by the Step 1 preparation),
and the comparison is exact string equality on the stripped values.  A
key value and a token whose stripped forms coincide match; values
differing in letter case do not (see the counterexample). -/
theorem C2_amended_whitespace_only (v t : String) (ids : List String)
    (e : Option String) (hvt : pyStripWsS v = pyStripWsS t)
    (hstrip : pyStripWsS t = t) (hids : t ∈ ids) :
    rowMask ["OLD Item-variant", "Ean no."] "OLD Item-variant" "Ean no." ids
      [prepCell (some v), prepCell e] = true := by
  unfold rowMask
  have h1 : cellAt ["OLD Item-variant", "Ean no."] [prepCell (some v), prepCell e]
      "OLD Item-variant" = prepCell (some v) := rfl
  rw [h1]
  have hleft : isinCell ids (prepCell (some v)) = true := by
    show ids.contains (pyStripWsS (cellToStr (some v))) = true
    show ids.contains (pyStripWsS v) = true
    rw [hvt, hstrip]
    exact List.elem_iff.mpr hids
  rw [hleft, Bool.true_or]

/-- C2 witness: the amended theorem at the concrete padded key
`" Abc "` and token `Abc`. -/
theorem C2_witness :
    rowMask ["OLD Item-variant", "Ean no."] "OLD Item-variant" "Ean no." ["Abc"]
      [prepCell (some " Abc "), prepCell (some "999")] = true :=
  C2_amended_whitespace_only " Abc " "Abc" ["Abc"] (some "999")
    (by decide) (by decide) (by decide)

/-- C3 counterexample to the claim as stated: the reference key `ABC`
is a prefix of the token `ABCDEF`, yet the token is reported unmatched
(the code has no Prefix tier at all). -/
theorem C3_counterexample :
    ("ABC" : String).data <+: ("ABCDEF" : String).data ∧
    (step3_matches workAB "OLD Item-variant" "Ean no." (parse_pasted_ids "ABCDEF")).rows
        = [] ∧
    step3_not_found workAB "OLD Item-variant" "Ean no." (parse_pasted_ids "ABCDEF")
        = ["ABCDEF"] := by
  refine ⟨by decide, by decide, by decide⟩

/-- C3 (amended).  Resolution has a single exact tier: a token with no
exact match is reported unmatched even when a reference key value (an
already-stripped string) is a proper prefix of the token — no Prefix
tier exists, so no row is produced and the token lands in `not_found`. -/
theorem C3_amended_single_exact_tier (k tok : String)
    (cm : List (String × Option String))
    (hpre : k.data <+: tok.data) (hne : k ≠ tok) :
    (step3_matches ⟨["OLD Item-variant", "Ean no."], [[some k, some k]]⟩
        "OLD Item-variant" "Ean no." [tok]).rows = [] ∧
    step3_not_found ⟨["OLD Item-variant", "Ean no."], [[some k, some k]]⟩
        "OLD Item-variant" "Ean no." [tok] = [tok] ∧
    (step3_ordered ⟨["OLD Item-variant", "Ean no."], [[some k, some k]]⟩
        "OLD Item-variant" "Ean no." [tok] cm).rows = [] := by
  have hcell : isinCell [tok] (some k) = false := by
    have hmem : ¬ (isinCell [tok] (some k) = true) := by
      intro hc
      have : k ∈ [tok] := List.elem_iff.mp hc
      simp only [List.mem_singleton] at this
      exact hne this
    exact Bool.eq_false_iff.mpr hmem
  have hmask : rowMask ["OLD Item-variant", "Ean no."] "OLD Item-variant" "Ean no." [tok]
      [some k, some k] = false := by
    unfold rowMask
    have h1 : cellAt ["OLD Item-variant", "Ean no."] [some k, some k]
        "OLD Item-variant" = some k := rfl
    have h2 : cellAt ["OLD Item-variant", "Ean no."] [some k, some k]
        "Ean no." = some k := rfl
    rw [h1, h2, hcell, Bool.or_self]
  have hrows : (step3_matches ⟨["OLD Item-variant", "Ean no."], [[some k, some k]]⟩
      "OLD Item-variant" "Ean no." [tok]).rows = [] := by
    unfold step3_matches
    simp [List.filter_cons, hmask]
  refine ⟨hrows, ?_, ?_⟩
  · unfold step3_not_found step3_matched_keys getColValues
    rw [hrows]
    simp
  · have hlen := sar_rows_length (step3_matches
      ⟨["OLD Item-variant", "Ean no."], [[some k, some k]]⟩
      "OLD Item-variant" "Ean no." [tok]) cm
    rw [hrows] at hlen
    exact List.eq_nil_of_length_eq_zero hlen

/-- C3 witness: the amended theorem at the concrete key `ABC` and token
`ABCDEF`. -/
theorem C3_witness :
    step3_not_found ⟨["OLD Item-variant", "Ean no."], [[some "ABC", some "ABC"]]⟩
        "OLD Item-variant" "Ean no." ["ABCDEF"] = ["ABCDEF"] :=
  (C3_amended_single_exact_tier "ABC" "ABCDEF" cmAB (by decide) (by decide)).2.1
